import Mathlib

/-!
Verification of the Apigee hybrid health-target generator
(`python-script/generate_targets.py`).

The script is a linear pipeline: resolve a Kubernetes Service address,
fetch `ApigeeRoute` custom resources, parse them into a hostname → path
map, and emit a Prometheus file-SD target list as JSON.

We embed the pure transformation logic shallowly:
* optional dictionary fields become `Option` fields (`none` models an
  absent key, mirroring Python's `dict.get`);
* Python's insertion-ordered `dict` becomes an association list whose
  operations (`setdefault`, membership-guarded append) preserve insertion
  order exactly as CPython does;
* Python truthiness of optional strings (`None` and `""` are falsy) is
  modelled explicitly (`pyOr`, emptiness tests);
* the fallible cluster calls become explicit `Option`-valued inputs to a
  model of `main`'s control flow.
-/

namespace ApigeeHealth

/-- The `uri` dictionary of a match entry: optional `prefixPattern` and
`prefix` string fields (`none` = key absent). -/
structure UriMatcher where
  prefixPattern : Option String
  prefix_ : Option String
  deriving Repr, DecidableEq

/-- One entry of a rule's `matches` list; `uri` is an optional sub-dict
(`match.get('uri', {})`). -/
structure RouteMatch where
  uri : Option UriMatcher
  deriving Repr, DecidableEq

/-- One entry of `rules.http`: an optional `matches` list
(`rule.get('matches', [])`; `matches` is reserved in Lean, hence the
trailing underscore). -/
structure HttpRule where
  matches_ : Option (List RouteMatch)
  deriving Repr, DecidableEq

/-- The `rules` dictionary of a spec: an optional `http` list. -/
structure RulesSpec where
  http : Option (List HttpRule)
  deriving Repr, DecidableEq

/-- The `spec` dictionary of an ApigeeRoute resource. -/
structure ItemSpec where
  hostnames : Option (List String)
  rules : Option RulesSpec
  deriving Repr, DecidableEq

/-- One ApigeeRoute resource object (`item.get('spec', {})`). -/
structure Item where
  spec : Option ItemSpec
  deriving Repr, DecidableEq

/-- The accumulating `hostname_map`: a Python `dict` from hostname to an
ordered list of paths, modelled as an insertion-ordered association list. -/
abbrev RouteMap := List (String × List String)

/-- Labels of one Prometheus target group, in the key order the script
inserts them. -/
structure TargetLabels where
  apigee_hostname : String
  apigee_basepath : String
  job : String
  deriving Repr, DecidableEq

/-- One Prometheus file-SD target group: `{"targets": [...], "labels": {...}}`. -/
structure Target where
  targets : List String
  labels : TargetLabels
  deriving Repr, DecidableEq

/-- Python `a or b` on optional strings: `None` and `""` are falsy. -/
def pyOr (a b : Option String) : Option String :=
  match a with
  | some s => if s.isEmpty then b else some s
  | none => b

/-- `uri.get('prefixPattern') or uri.get('prefix')` for one match entry. -/
def matchPath (m : RouteMatch) : Option String :=
  let uri := m.uri.getD ⟨none, none⟩
  pyOr uri.prefixPattern uri.prefix_

/-- Python `str.startswith`: the needle's character sequence is a prefix
of the subject's. (Stated on `.data` rather than via `String.startsWith`
so that it evaluates by structural recursion; the two agree on strings.) -/
def pyStartsWith (s pre : String) : Bool :=
  pre.data.isPrefixOf s.data

/-- Loop body for the `routes` accumulator:
`if prefix and not prefix.startswith('/__apigee__/'): routes.append(prefix)`. -/
def addMatch (routes : List String) (m : RouteMatch) : List String :=
  match matchPath m with
  | none => routes
  | some p =>
    if !p.isEmpty && !(pyStartsWith p "/__apigee__/") then routes ++ [p] else routes

/-- `spec.get('hostnames')`, with Python truthiness folding `None` to `[]`. -/
def hostnamesOf (item : Item) : List String :=
  ((item.spec.getD ⟨none, none⟩).hostnames).getD []

/-- `spec.get('rules', {}).get('http', [])`. -/
def httpRulesOf (item : Item) : List HttpRule :=
  (((item.spec.getD ⟨none, none⟩).rules).getD ⟨none⟩).http.getD []

/-- The `routes` list collected for one resource: all accepted path values,
in rule order then match order. -/
def routesOf (item : Item) : List String :=
  (httpRulesOf item).foldl
    (fun routes rule => (rule.matches_.getD []).foldl addMatch routes) []

/-- Does the association list have an entry for key `k`? -/
def containsKey (m : RouteMap) (k : String) : Bool :=
  m.any fun p => p.1 == k

/-- `hostname_map.setdefault(hostname, [])`: add an empty entry at the end
iff the key is absent (CPython dicts append new keys in insertion order). -/
def setdefault (m : RouteMap) (k : String) : RouteMap :=
  if containsKey m k then m else m ++ [(k, [])]

/-- Append `a` to the list iff not already present
(`if route not in ...: ....append(route)`). -/
def insertUniq (l : List String) (a : String) : List String :=
  if a ∈ l then l else l ++ [a]

/-- Update the entry of key `k` by the membership-guarded append. -/
def appendRoute (m : RouteMap) (k r : String) : RouteMap :=
  m.map fun p => if p.1 == k then (p.1, insertUniq p.2 r) else p

/-- Body of `parse_apigee_routes`'s outer loop, for one resource object. -/
def processItem (hostname_map : RouteMap) (item : Item) : RouteMap :=
  if (hostnamesOf item).isEmpty || (httpRulesOf item).isEmpty then hostname_map
  else if (routesOf item).isEmpty then hostname_map
  else
    (hostnamesOf item).foldl
      (fun hm hostname =>
        (routesOf item).foldl (fun hm' route => appendRoute hm' hostname route)
          (setdefault hm hostname))
      hostname_map

/-- `parse_apigee_routes(items)`: fold the per-item body over the input,
starting from the empty map. -/
def parse_apigee_routes (items : List Item) : RouteMap :=
  items.foldl processItem []

/-- `generate_prometheus_targets(route_map, service_ip)`: one target group
per (hostname, route), appended in map order then route order. -/
def generate_prometheus_targets (route_map : RouteMap) (service_ip : String) :
    List Target :=
  route_map.foldl
    (fun targets hr =>
      hr.2.foldl
        (fun targets route =>
          targets ++
            [{ targets := ["https://" ++ service_ip ++ "/healthz" ++ route]
               labels := { apigee_hostname := hr.1
                           apigee_basepath := route
                           job := "apigee-health" } }])
        targets)
    []

/-- Outcome of the Service lookup as visible to `get_k8s_service_ip`:
either an API exception or a Service whose `spec.cluster_ip` is the given
optional string (`none` = field missing/null). -/
inductive ServiceLookup where
  | apiError (status : Nat)
  | found (cluster_ip : Option String)
  deriving Repr, DecidableEq

/-- `get_k8s_service_ip`: `None` on any API error and whenever the
ClusterIP is falsy (`None`/missing/empty) or the literal string "None". -/
def get_k8s_service_ip (r : ServiceLookup) : Option String :=
  match r with
  | .apiError _ => none
  | .found none => none
  | .found (some ip) => if ip.isEmpty || ip == "None" then none else some ip

/-- One hex digit, lowercase, as CPython's `\u%04x` formatting produces. -/
def hexDigit (n : Nat) : Char :=
  if n < 10 then Char.ofNat (48 + n) else Char.ofNat (87 + n)

/-- Four lowercase hex digits. -/
def hex4 (n : Nat) : String :=
  ⟨[hexDigit (n / 4096 % 16), hexDigit (n / 256 % 16),
    hexDigit (n / 16 % 16), hexDigit (n % 16)]⟩

/-- CPython `json` ASCII escaping of one character (`ensure_ascii=True`,
the default used by `json.dump`). -/
def jsonEscapeChar (c : Char) : String :=
  if c = Char.ofNat 34 then "\\\""
  else if c = Char.ofNat 92 then "\\\\"
  else if c.toNat = 10 then "\\n"
  else if c.toNat = 13 then "\\r"
  else if c.toNat = 9 then "\\t"
  else if c.toNat = 8 then "\\b"
  else if c.toNat = 12 then "\\f"
  else if c.toNat < 32 then "\\u" ++ hex4 c.toNat
  else if c.toNat < 127 then String.singleton c
  else if c.toNat < 65536 then "\\u" ++ hex4 c.toNat
  else
    let v := c.toNat - 65536
    "\\u" ++ hex4 (55296 + v / 1024) ++ "\\u" ++ hex4 (56320 + v % 1024)

/-- A JSON string literal for `s`. -/
def jsonStr (s : String) : String :=
  "\"" ++ String.join (s.data.map jsonEscapeChar) ++ "\""

/-- A JSON list of strings as `json.dump(..., indent=2)` prints it when the
opening bracket sits at indentation `ind`. -/
def renderStrList (ind : String) (xs : List String) : String :=
  if xs.isEmpty then "[]"
  else
    "[\n" ++ ind ++ "  " ++
      String.intercalate (",\n" ++ ind ++ "  ") (xs.map jsonStr) ++
      "\n" ++ ind ++ "]"

/-- One target-group object as `json.dump(..., indent=2)` prints it at list
depth 1 (keys in insertion order: `targets`, then `labels` with
`apigee_hostname`, `apigee_basepath`, `job`). -/
def renderTarget (t : Target) : String :=
  "\x7b\n    \"targets\": " ++ renderStrList "    " t.targets ++
    ",\n    \"labels\": \x7b\n      \"apigee_hostname\": " ++
    jsonStr t.labels.apigee_hostname ++
    ",\n      \"apigee_basepath\": " ++ jsonStr t.labels.apigee_basepath ++
    ",\n      \"job\": " ++ jsonStr t.labels.job ++ "\n    \x7d\n  \x7d"

/-- The full output file content `json.dump(prometheus_targets, f, indent=2)`. -/
def renderTargets (ts : List Target) : String :=
  if ts.isEmpty then "[]"
  else "[\n  " ++ String.intercalate ",\n  " (ts.map renderTarget) ++ "\n]"

/-- Observable outcome of one run of `main`: the process exit code and the
content written to the output file, if any. -/
structure RunOutcome where
  exitCode : Nat
  written : Option String
  deriving Repr, DecidableEq

/-- `main`'s control flow after config loading, as a function of the two
cluster-call results: exit 1 with no output when the Service resolution or
the route listing failed; otherwise parse, and write either `[]` (empty
route map) or the rendered target list, exiting 0. -/
def mainRun (ip_result : Option String) (items_result : Option (List Item)) :
    RunOutcome :=
  match ip_result with
  | none => ⟨1, none⟩
  | some service_ip =>
    match items_result with
    | none => ⟨1, none⟩
    | some items =>
      let route_map := parse_apigee_routes items
      if route_map.isEmpty then ⟨0, some "[]"⟩
      else ⟨0, some (renderTargets (generate_prometheus_targets route_map service_ip))⟩

/-! ## Specification-side definitions

These restate parts of the contract in the spec's own vocabulary, to be
compared with the source-derived functions above. -/

/-- The (hostname, path) pairs of a route map, in map iteration order:
hostnames in map order, paths in list order within each hostname. -/
def routePairs (route_map : RouteMap) : List (String × String) :=
  route_map.flatMap fun hr => hr.2.map fun route => (hr.1, route)

/-- The Target the spec prescribes for a resolved address and one
(hostname, path) pair. -/
def specTarget (address : String) (p : String × String) : Target :=
  { targets := ["https://" ++ address ++ "/healthz" ++ p.2]
    labels := { apigee_hostname := p.1
                apigee_basepath := p.2
                job := "apigee-health" } }

/-- The spec's target generator contract: exactly one Target per
(hostname, path) pair, in route-map iteration order. -/
def targetsSpec (address : String) (route_map : RouteMap) : List Target :=
  (routePairs route_map).map (specTarget address)

/-- First-occurrence-wins de-duplication, keeping encounter order. -/
def firstDedup (l : List String) : List String :=
  l.foldl insertUniq []

/-- A resource object contributes to the route map iff its hostnames,
`rules.http` and surviving route list are all non-empty. -/
def eligibleItem (it : Item) : Bool :=
  !(hostnamesOf it).isEmpty && !(httpRulesOf it).isEmpty && !(routesOf it).isEmpty

/-- Hostnames in first-encounter order over the contributing resources. -/
def encounterHostnames (items : List Item) : List String :=
  firstDedup ((items.filter eligibleItem).flatMap hostnamesOf)

/-- All surviving path values contributed to hostname `h`, in encounter
order across contributing resources that declare `h`. -/
def contributionsTo (items : List Item) (h : String) : List String :=
  (items.filter fun it => eligibleItem it && decide (h ∈ hostnamesOf it)).flatMap routesOf

/-- The route map the spec describes: hostnames in first-encounter order,
each mapped to the first-wins de-duplication of its contributions. -/
def canonicalRouteMap (items : List Item) : RouteMap :=
  (encounterHostnames items).map fun h => (h, firstDedup (contributionsTo items h))

/-! ## Concrete sample resources (used to instantiate theorems) -/

/-- A resource declaring one reserved-prefix match and one ordinary match. -/
def witnessItemReserved : Item :=
  ⟨some ⟨some ["a.example.com"],
    some ⟨some [⟨some [⟨some ⟨none, some "/__apigee__/internal"⟩⟩,
                  ⟨some ⟨none, some "/v1"⟩⟩]⟩]⟩⟩⟩

/-- A resource declaring the same path twice. -/
def witnessItemDup : Item :=
  ⟨some ⟨some ["a.example.com"],
    some ⟨some [⟨some [⟨some ⟨none, some "/v1/orders"⟩⟩,
                  ⟨some ⟨none, some "/v1/orders"⟩⟩]⟩]⟩⟩⟩

/-! ## Proof-side auxiliary definitions -/

/-- A route map presented as a key list together with a value function. -/
def mapOf (K : List String) (V : String → List String) : RouteMap :=
  K.map fun k => (k, V k)

/-- The per-hostname part of `parse_apigee_routes`'s loop body:
`setdefault` followed by the membership-guarded appends of all routes. -/
def oneHost (rs : List String) (hm : RouteMap) (h : String) : RouteMap :=
  rs.foldl (fun hm' r => appendRoute hm' h r) (setdefault hm h)

/-! ## Lemmas about the accumulation primitives -/

theorem insertUniq_of_mem {l : List String} {a : String} (h : a ∈ l) :
    insertUniq l a = l := by
  simp [insertUniq, h]

theorem mem_insertUniq_iff {l : List String} {a b : String} :
    b ∈ insertUniq l a ↔ b ∈ l ∨ b = a := by
  by_cases h : a ∈ l
  · simp only [insertUniq, if_pos h]
    constructor
    · exact Or.inl
    · rintro (hb | rfl)
      · exact hb
      · exact h
  · simp [insertUniq, if_neg h]

theorem mem_foldl_insertUniq {xs : List String} {acc : List String} {b : String} :
    b ∈ xs.foldl insertUniq acc ↔ b ∈ acc ∨ b ∈ xs := by
  induction xs generalizing acc with
  | nil => simp
  | cons x xs ih =>
    rw [List.foldl_cons]
    rw [ih]
    rw [mem_insertUniq_iff]
    simp only [List.mem_cons]
    tauto

theorem foldl_insertUniq_of_subset {xs acc : List String} (h : ∀ a ∈ xs, a ∈ acc) :
    xs.foldl insertUniq acc = acc := by
  induction xs generalizing acc with
  | nil => rfl
  | cons x xs ih =>
    rw [List.foldl_cons, insertUniq_of_mem (h x (by simp))]
    exact ih fun a ha => h a (by simp [ha])

theorem foldl_insertUniq_absorb (acc xs : List String) :
    xs.foldl insertUniq (xs.foldl insertUniq acc) = xs.foldl insertUniq acc :=
  foldl_insertUniq_of_subset fun _ ha => mem_foldl_insertUniq.mpr (Or.inr ha)

theorem nodup_insertUniq {l : List String} (h : l.Nodup) (a : String) :
    (insertUniq l a).Nodup := by
  unfold insertUniq
  split
  · exact h
  · rename_i hna
    rw [List.nodup_append]
    refine ⟨h, List.nodup_singleton a, ?_⟩
    intro x hx hxa
    rw [List.mem_singleton] at hxa
    exact hna (hxa ▸ hx)

theorem nodup_foldl_insertUniq {acc : List String} (h : acc.Nodup) (xs : List String) :
    (xs.foldl insertUniq acc).Nodup := by
  induction xs generalizing acc with
  | nil => exact h
  | cons x xs ih => exact ih (nodup_insertUniq h x)

theorem firstDedup_nodup (l : List String) : (firstDedup l).Nodup :=
  nodup_foldl_insertUniq List.nodup_nil l

theorem mem_firstDedup {l : List String} {b : String} :
    b ∈ firstDedup l ↔ b ∈ l := by
  unfold firstDedup
  rw [mem_foldl_insertUniq]
  simp

theorem firstDedup_append (l l' : List String) :
    firstDedup (l ++ l') = l'.foldl insertUniq (firstDedup l) := by
  unfold firstDedup
  exact List.foldl_append ..

/-! ## The target generator -/

/-- A left fold whose step appends a per-element block is a `flatMap`. -/
theorem foldl_append_of_step {α β : Type} (g : List β → α → List β) (δ : α → List β)
    (hg : ∀ acc x, g acc x = acc ++ δ x) :
    ∀ (l : List α) (acc : List β), l.foldl g acc = acc ++ l.flatMap δ := by
  intro l
  induction l with
  | nil => simp
  | cons x xs ih =>
    intro acc
    rw [List.foldl_cons, hg, ih]
    simp

/-- A left fold pushing one image per element is a `map`. -/
theorem foldl_push_eq_map {α β : Type} (f : α → β) (l : List α) (acc : List β) :
    l.foldl (fun ts x => ts ++ [f x]) acc = acc ++ l.map f := by
  induction l generalizing acc with
  | nil => simp
  | cons x xs ih => simp [ih]

/-- The source's target generator agrees with the spec's contract
(`targetsSpec`): one Target per pair, in iteration order. -/
theorem generate_eq_targetsSpec (route_map : RouteMap) (address : String) :
    generate_prometheus_targets route_map address = targetsSpec address route_map := by
  unfold generate_prometheus_targets
  refine (foldl_append_of_step _
    (fun hr => hr.2.map fun route => specTarget address (hr.1, route))
    (fun acc hr => foldl_push_eq_map (fun route => specTarget address (hr.1, route)) hr.2 acc)
    route_map []).trans ?_
  unfold targetsSpec routePairs
  rw [List.map_flatMap]
  simp only [List.nil_append, List.map_map]
  rfl

/-! ## The route-map accumulation, characterized -/

theorem mapOf_congr {K : List String} {V W : String → List String}
    (h : ∀ k ∈ K, V k = W k) : mapOf K V = mapOf K W :=
  List.map_congr_left fun k hk => by rw [h k hk]

theorem containsKey_mapOf_iff {K : List String} {V : String → List String} {k : String} :
    containsKey (mapOf K V) k = true ↔ k ∈ K := by
  unfold containsKey mapOf
  rw [List.any_eq_true]
  constructor
  · rintro ⟨p, hp, hbeq⟩
    rw [List.mem_map] at hp
    obtain ⟨a, ha, rfl⟩ := hp
    rw [beq_iff_eq] at hbeq
    exact hbeq ▸ ha
  · intro hk
    exact ⟨(k, V k), List.mem_map.mpr ⟨k, hk, rfl⟩, beq_self_eq_true k⟩

theorem appendRoute_mapOf (K : List String) (V : String → List String) (h r : String) :
    appendRoute (mapOf K V) h r =
      mapOf K (fun k => if k = h then insertUniq (V k) r else V k) := by
  unfold appendRoute mapOf
  rw [List.map_map]
  refine List.map_congr_left fun k _ => ?_
  by_cases hk : k = h
  · subst hk
    simp
  · simp [hk]

theorem setdefault_mapOf_of_mem {K : List String} {V : String → List String} {h : String}
    (hh : h ∈ K) : setdefault (mapOf K V) h = mapOf K V := by
  unfold setdefault
  rw [if_pos (containsKey_mapOf_iff.mpr hh)]

theorem setdefault_mapOf_of_not_mem {K : List String} {V : String → List String}
    {h : String} (hh : h ∉ K) (hV : V h = []) :
    setdefault (mapOf K V) h = mapOf (K ++ [h]) V := by
  unfold setdefault
  rw [if_neg fun hc => hh (containsKey_mapOf_iff.mp hc)]
  unfold mapOf
  rw [List.map_append]
  simp [hV]

theorem foldl_appendRoute_mapOf (h : String) :
    ∀ (rs : List String) (K : List String) (V : String → List String),
      rs.foldl (fun hm r => appendRoute hm h r) (mapOf K V) =
        mapOf K (fun k => if k = h then rs.foldl insertUniq (V k) else V k) := by
  intro rs
  induction rs with
  | nil =>
    intro K V
    simp only [List.foldl_nil]
    refine mapOf_congr fun k _ => ?_
    by_cases hk : k = h <;> simp [hk]
  | cons r rs ih =>
    intro K V
    rw [List.foldl_cons, appendRoute_mapOf, ih]
    refine mapOf_congr fun k _ => ?_
    by_cases hk : k = h
    · subst hk
      simp [List.foldl_cons]
    · simp [hk]

theorem oneHost_mapOf (rs : List String) (K : List String) (V : String → List String)
    (h : String) (hsup : h ∉ K → V h = []) :
    oneHost rs (mapOf K V) h =
      mapOf (insertUniq K h)
        (fun k => if k = h then rs.foldl insertUniq (V k) else V k) := by
  unfold oneHost
  by_cases hh : h ∈ K
  · rw [setdefault_mapOf_of_mem hh, foldl_appendRoute_mapOf, insertUniq_of_mem hh]
  · have hKh : insertUniq K h = K ++ [h] := by
      unfold insertUniq
      rw [if_neg hh]
    rw [setdefault_mapOf_of_not_mem hh (hsup hh), foldl_appendRoute_mapOf, hKh]

theorem foldl_oneHost_mapOf (rs : List String) :
    ∀ (hs : List String) (K : List String) (V : String → List String),
      (∀ k, k ∉ K → V k = []) →
      hs.foldl (oneHost rs) (mapOf K V) =
        mapOf (hs.foldl insertUniq K)
          (fun k => if k ∈ hs then rs.foldl insertUniq (V k) else V k) := by
  intro hs
  induction hs with
  | nil =>
    intro K V _
    simp only [List.foldl_nil]
    exact mapOf_congr fun k _ => by simp
  | cons h hs ih =>
    intro K V hsup
    rw [List.foldl_cons, oneHost_mapOf rs K V h (hsup h), List.foldl_cons]
    rw [ih (insertUniq K h) _ ?hsup]
    case hsup =>
      intro k hk
      rw [mem_insertUniq_iff] at hk
      push_neg at hk
      rw [if_neg hk.2]
      exact hsup k hk.1
    refine mapOf_congr fun k _ => ?_
    by_cases hk : k = h
    · subst hk
      by_cases hmem : k ∈ hs
      · simp [hmem, foldl_insertUniq_absorb]
      · simp [hmem]
    · simp [hk, List.mem_cons]

/-! ## Eligibility and the per-item step -/

theorem processItem_of_eligible (hm : RouteMap) (item : Item)
    (he : eligibleItem item = true) :
    processItem hm item = (hostnamesOf item).foldl (oneHost (routesOf item)) hm := by
  unfold eligibleItem at he
  simp only [Bool.and_eq_true, Bool.not_eq_true'] at he
  obtain ⟨⟨h1, h2⟩, h3⟩ := he
  unfold processItem
  rw [h1, h2, h3]
  simp only [Bool.or_self, Bool.false_eq_true, if_false]
  rfl

theorem processItem_skip (hm : RouteMap) (item : Item)
    (h : hostnamesOf item = [] ∨ httpRulesOf item = [] ∨ routesOf item = []) :
    processItem hm item = hm := by
  unfold processItem
  rcases h with h | h | h <;> simp [h]

theorem processItem_of_not_eligible (hm : RouteMap) (item : Item)
    (he : eligibleItem item = false) :
    processItem hm item = hm := by
  unfold eligibleItem at he
  apply processItem_skip
  by_cases e1 : hostnamesOf item = []
  · exact Or.inl e1
  by_cases e2 : httpRulesOf item = []
  · exact Or.inr (Or.inl e2)
  by_cases e3 : routesOf item = []
  · exact Or.inr (Or.inr e3)
  exfalso
  rw [← List.isEmpty_iff] at e1 e2 e3
  rw [Bool.not_eq_true] at e1 e2 e3
  rw [e1, e2, e3] at he
  simp at he

/-! ## The canonical route map -/

theorem encounterHostnames_append (items : List Item) (it : Item) :
    encounterHostnames (items ++ [it]) =
      (if eligibleItem it then hostnamesOf it else []).foldl insertUniq
        (encounterHostnames items) := by
  unfold encounterHostnames
  rw [List.filter_append, List.flatMap_append, firstDedup_append]
  by_cases he : eligibleItem it <;> simp [he]

theorem contributionsTo_append (items : List Item) (it : Item) (k : String) :
    contributionsTo (items ++ [it]) k =
      contributionsTo items k ++
        (if eligibleItem it && decide (k ∈ hostnamesOf it) then routesOf it else []) := by
  unfold contributionsTo
  rw [List.filter_append, List.flatMap_append]
  congr 1
  by_cases hp : (eligibleItem it && decide (k ∈ hostnamesOf it)) = true <;> simp [hp]

theorem contributionsTo_of_not_encountered {items : List Item} {k : String}
    (h : k ∉ encounterHostnames items) : contributionsTo items k = [] := by
  unfold contributionsTo
  have hnil : (items.filter fun it => eligibleItem it && decide (k ∈ hostnamesOf it)) = [] := by
    rw [List.filter_eq_nil_iff]
    intro it hit
    simp only [Bool.and_eq_true, decide_eq_true_eq, not_and]
    intro he hk
    apply h
    unfold encounterHostnames
    rw [mem_firstDedup]
    exact List.mem_flatMap.mpr ⟨it, List.mem_filter.mpr ⟨hit, he⟩, hk⟩
  rw [hnil]
  rfl

/-- The parser agrees with the canonical route map: hostnames in
first-encounter order, each with the first-wins de-duplication of its
contributions in encounter order. -/
theorem parse_eq_canonical (items : List Item) :
    parse_apigee_routes items = canonicalRouteMap items := by
  induction items using List.reverseRecOn with
  | nil => rfl
  | append_singleton items it ih =>
    have hparse : parse_apigee_routes (items ++ [it]) =
        processItem (parse_apigee_routes items) it := by
      unfold parse_apigee_routes
      rw [List.foldl_append]
      rfl
    rw [hparse, ih]
    by_cases he : eligibleItem it = true
    · rw [show canonicalRouteMap items =
          mapOf (encounterHostnames items)
            (fun h => firstDedup (contributionsTo items h)) from rfl]
      rw [processItem_of_eligible _ _ he]
      rw [foldl_oneHost_mapOf (routesOf it) (hostnamesOf it) (encounterHostnames items) _
        (fun k hk => by rw [contributionsTo_of_not_encountered hk]; rfl)]
      have hkeys : encounterHostnames (items ++ [it]) =
          (hostnamesOf it).foldl insertUniq (encounterHostnames items) := by
        rw [encounterHostnames_append, if_pos he]
      have hvals : ∀ k, firstDedup (contributionsTo (items ++ [it]) k) =
          if k ∈ hostnamesOf it then
            (routesOf it).foldl insertUniq (firstDedup (contributionsTo items k))
          else firstDedup (contributionsTo items k) := by
        intro k
        rw [contributionsTo_append, firstDedup_append, he, Bool.true_and]
        by_cases hk : k ∈ hostnamesOf it
        · rw [if_pos hk, if_pos (by rw [decide_eq_true_eq]; exact hk)]
        · rw [if_neg hk, if_neg (by rw [decide_eq_true_eq]; exact hk), List.foldl_nil]
      show mapOf _ _ = canonicalRouteMap (items ++ [it])
      rw [show canonicalRouteMap (items ++ [it]) =
          mapOf (encounterHostnames (items ++ [it]))
            (fun h => firstDedup (contributionsTo (items ++ [it]) h)) from rfl]
      rw [hkeys]
      exact mapOf_congr fun k _ => (hvals k).symm
    · have he' : eligibleItem it = false := by
        rw [← Bool.not_eq_true]
        exact he
      rw [processItem_of_not_eligible _ _ he']
      rw [show canonicalRouteMap items =
          mapOf (encounterHostnames items)
            (fun h => firstDedup (contributionsTo items h)) from rfl]
      rw [show canonicalRouteMap (items ++ [it]) =
          mapOf (encounterHostnames (items ++ [it]))
            (fun h => firstDedup (contributionsTo (items ++ [it]) h)) from rfl]
      have hk : encounterHostnames (items ++ [it]) = encounterHostnames items := by
        rw [encounterHostnames_append, if_neg (by rw [he']; exact Bool.false_ne_true)]
        rfl
      have hc : ∀ k, contributionsTo (items ++ [it]) k = contributionsTo items k := by
        intro k
        rw [contributionsTo_append, he', Bool.false_and]
        simp
      rw [hk]
      exact mapOf_congr fun k _ => by rw [hc k]

/-! ## Reserved-prefix filtering -/

theorem addMatch_startsWith_false {routes : List String} {m : RouteMatch}
    (hall : ∀ p ∈ routes, pyStartsWith p "/__apigee__/" = false) :
    ∀ p ∈ addMatch routes m, pyStartsWith p "/__apigee__/" = false := by
  intro p hp
  unfold addMatch at hp
  cases hmp : matchPath m with
  | none =>
    rw [hmp] at hp
    exact hall p hp
  | some q =>
    rw [hmp] at hp
    have hp' : p ∈ (if (!q.isEmpty && !(pyStartsWith q "/__apigee__/")) = true
        then routes ++ [q] else routes) := hp
    by_cases hc : (!q.isEmpty && !(pyStartsWith q "/__apigee__/")) = true
    · rw [if_pos hc] at hp'
      rw [List.mem_append] at hp'
      rcases hp' with hp' | hp'
      · exact hall p hp'
      · rw [List.mem_singleton] at hp'
        subst hp'
        cases hsw : pyStartsWith p "/__apigee__/" with
        | false => rfl
        | true =>
          rw [hsw] at hc
          simp at hc
    · rw [if_neg hc] at hp'
      exact hall p hp'

theorem foldl_addMatch_startsWith_false (ms : List RouteMatch) :
    ∀ routes, (∀ p ∈ routes, pyStartsWith p "/__apigee__/" = false) →
      ∀ p ∈ ms.foldl addMatch routes, pyStartsWith p "/__apigee__/" = false := by
  induction ms with
  | nil => exact fun routes h => h
  | cons m ms ih =>
    intro routes h
    rw [List.foldl_cons]
    exact ih _ (addMatch_startsWith_false h)

theorem foldl_rules_startsWith_false (rules : List HttpRule) :
    ∀ routes, (∀ p ∈ routes, pyStartsWith p "/__apigee__/" = false) →
      ∀ p ∈ rules.foldl
          (fun routes rule => (rule.matches_.getD []).foldl addMatch routes) routes,
        pyStartsWith p "/__apigee__/" = false := by
  induction rules with
  | nil => exact fun routes h => h
  | cons r rs ih =>
    intro routes h
    rw [List.foldl_cons]
    exact ih _ (foldl_addMatch_startsWith_false _ _ h)

theorem routesOf_startsWith_false (item : Item) :
    ∀ p ∈ routesOf item, pyStartsWith p "/__apigee__/" = false :=
  foldl_rules_startsWith_false (httpRulesOf item) [] (by simp)

/-! ## Claim theorems: target generator -/

/-- C1: for every resolved address and route map, the target generator
produces exactly one Target per (hostname, path) pair, in route-map
iteration order (hostnames in map order, paths in list order within each
hostname), each Target being
`{"targets": ["https://<address>/healthz<path>"], "labels":
{"apigee_hostname": hostname, "apigee_basepath": path, "job": "apigee-health"}}`. -/
theorem C1_one_target_per_pair (address : String) (route_map : RouteMap) :
    generate_prometheus_targets route_map address =
      (routePairs route_map).map fun p =>
        { targets := ["https://" ++ address ++ "/healthz" ++ p.2]
          labels := { apigee_hostname := p.1
                      apigee_basepath := p.2
                      job := "apigee-health" } } := by
  rw [generate_eq_targetsSpec]
  rfl

/-- C2: parsing the single documented example resource and generating
targets with resolved address `10.0.0.5` yields exactly the one documented
Target. -/
theorem C2_documented_example :
    generate_prometheus_targets
        (parse_apigee_routes
          [⟨some ⟨some ["a.example.com"],
                  some ⟨some [⟨some [⟨some ⟨none, some "/v1/orders"⟩⟩]⟩]⟩⟩⟩])
        "10.0.0.5" =
      [{ targets := ["https://10.0.0.5/healthz/v1/orders"]
         labels := { apigee_hostname := "a.example.com"
                     apigee_basepath := "/v1/orders"
                     job := "apigee-health" } }] := by
  decide

/-- C3: every URL in every produced Target's `targets` list starts with
`https://<resolved-address>/healthz` (stated as a character-sequence
prefix). -/
theorem C3_url_has_address_healthz_stem (route_map : RouteMap) (address : String)
    (t : Target) (ht : t ∈ generate_prometheus_targets route_map address)
    (u : String) (hu : u ∈ t.targets) :
    ("https://" ++ address ++ "/healthz").data <+: u.data := by
  rw [generate_eq_targetsSpec] at ht
  unfold targetsSpec at ht
  rw [List.mem_map] at ht
  obtain ⟨p, _, rfl⟩ := ht
  unfold specTarget at hu
  simp only [List.mem_singleton] at hu
  subst hu
  exact ⟨p.2.data, (String.data_append ..).symm⟩

theorem C3_witness :
    ("https://" ++ "10.0.0.5" ++ "/healthz").data <+:
      ("https://10.0.0.5/healthz/v1" : String).data :=
  C3_url_has_address_healthz_stem [("a.example.com", ["/v1"])] "10.0.0.5"
    { targets := ["https://10.0.0.5/healthz/v1"]
      labels := { apigee_hostname := "a.example.com"
                  apigee_basepath := "/v1"
                  job := "apigee-health" } }
    (by decide) "https://10.0.0.5/healthz/v1" (by decide)

/-! ## Claim theorems: parser invariants (C4, C5) -/

/-- C4: no path in the parsed route map equals or begins with the reserved
prefix `/__apigee__/`, and a match whose accepted path value begins with
that prefix contributes nothing to the collected routes. -/
theorem C4_reserved_prefix_discarded (items : List Item) :
    (∀ h ps, (h, ps) ∈ parse_apigee_routes items →
      ∀ p ∈ ps, pyStartsWith p "/__apigee__/" = false) ∧
    (∀ routes m p, matchPath m = some p → pyStartsWith p "/__apigee__/" = true →
      addMatch routes m = routes) := by
  constructor
  · intro h ps hmem p hp
    rw [parse_eq_canonical items] at hmem
    unfold canonicalRouteMap at hmem
    rw [List.mem_map] at hmem
    obtain ⟨k, _, hk⟩ := hmem
    simp only [Prod.mk.injEq] at hk
    obtain ⟨hk1, hk2⟩ := hk
    rw [← hk2] at hp
    rw [mem_firstDedup] at hp
    unfold contributionsTo at hp
    rw [List.mem_flatMap] at hp
    obtain ⟨it, _, hit⟩ := hp
    exact routesOf_startsWith_false it p hit
  · intro routes m p hmp hsw
    simp only [addMatch, hmp]
    rw [hsw]
    simp

theorem C4_witness : pyStartsWith "/v1" "/__apigee__/" = false :=
  (C4_reserved_prefix_discarded [witnessItemReserved]).1
    "a.example.com" ["/v1"]
    (by
      have hp : parse_apigee_routes [witnessItemReserved] =
          [("a.example.com", ["/v1"])] := by decide
      rw [hp]
      exact List.mem_singleton.mpr rfl)
    "/v1" (List.mem_singleton.mpr rfl)

/-- C5: the parsed route map is exactly the canonical one — hostnames in
first-encounter order, each carrying its contributions in encounter order
with first occurrences winning — and hence every hostname's path list has
no repeated entries. -/
theorem C5_routemap_dedup_first_encounter (items : List Item) :
    parse_apigee_routes items = canonicalRouteMap items ∧
    ∀ h ps, (h, ps) ∈ parse_apigee_routes items → ps.Nodup := by
  refine ⟨parse_eq_canonical items, ?_⟩
  intro h ps hmem
  rw [parse_eq_canonical items] at hmem
  unfold canonicalRouteMap at hmem
  rw [List.mem_map] at hmem
  obtain ⟨k, _, hk⟩ := hmem
  simp only [Prod.mk.injEq] at hk
  obtain ⟨hk1, hk2⟩ := hk
  rw [← hk2]
  exact firstDedup_nodup _

theorem C5_witness : (["/v1/orders"] : List String).Nodup :=
  (C5_routemap_dedup_first_encounter [witnessItemDup]).2
    "a.example.com" ["/v1/orders"]
    (by
      have hp : parse_apigee_routes [witnessItemDup] =
          [("a.example.com", ["/v1/orders"])] := by decide
      rw [hp]
      exact List.mem_singleton.mpr rfl)

/-! ## Claim theorems: match-field precedence (C6) -/

/-- C6 counterexample: a URI matcher carrying both fields, with
`prefixPattern` present but equal to the empty string, accepts the
`prefix` value — so "prefixPattern wins whenever it is present" is false
as stated. -/
theorem C6_counterexample_empty_prefixPattern :
    matchPath ⟨some ⟨some "", some "/v1"⟩⟩ = some "/v1" ∧
      matchPath ⟨some ⟨some "", some "/v1"⟩⟩ ≠ some "" := by
  decide

/-- C6 (amended): `prefixPattern` wins whenever it is present and
non-empty; the `prefix` field is consulted when `prefixPattern` is absent
or empty (Python truthiness of the `or` chain). -/
theorem C6_prefixPattern_precedence (m : RouteMatch) (u : UriMatcher)
    (hm : m.uri = some u) :
    (∀ pp, u.prefixPattern = some pp → pp ≠ "" → matchPath m = some pp) ∧
    ((u.prefixPattern = none ∨ u.prefixPattern = some "") →
      matchPath m = u.prefix_) := by
  have hmp : matchPath m = pyOr u.prefixPattern u.prefix_ := by
    unfold matchPath
    rw [hm, Option.getD_some]
  constructor
  · intro pp hpp hne
    rw [hmp, hpp]
    simp only [pyOr]
    rw [if_neg]
    intro he
    exact hne ((String.isEmpty_iff pp).mp he)
  · intro hcase
    rw [hmp]
    rcases hcase with hpp | hpp
    · rw [hpp]
      rfl
    · rw [hpp]
      simp only [pyOr]
      rw [if_pos]
      rfl

theorem C6_witness :
    matchPath ⟨some ⟨some "/pp", some "/v1"⟩⟩ = some "/pp" ∧
      matchPath ⟨some ⟨none, some "/v1"⟩⟩ = some "/v1" :=
  ⟨(C6_prefixPattern_precedence ⟨some ⟨some "/pp", some "/v1"⟩⟩
      ⟨some "/pp", some "/v1"⟩ rfl).1 "/pp" rfl (by decide),
   (C6_prefixPattern_precedence ⟨some ⟨none, some "/v1"⟩⟩
      ⟨none, some "/v1"⟩ rfl).2 (Or.inl rfl)⟩

/-! ## Claim theorems: skipping and control flow (C7, C8, C9, C10) -/

/-- C7: a resource object with no (non-empty) hostnames list, no
(non-empty) `rules.http` list, or no surviving route values leaves the
accumulating route map untouched — it is skipped, not an error. -/
theorem C7_invalid_items_skipped (hostname_map : RouteMap) (item : Item)
    (h : hostnamesOf item = [] ∨ httpRulesOf item = [] ∨ routesOf item = []) :
    processItem hostname_map item = hostname_map :=
  processItem_skip hostname_map item h

theorem C7_witness : processItem [("a.example.com", ["/v1"])] ⟨none⟩ =
    [("a.example.com", ["/v1"])] :=
  C7_invalid_items_skipped [("a.example.com", ["/v1"])] ⟨none⟩ (Or.inl (by decide))

/-- C8: when parsing yields an empty route map, the run writes the empty
JSON array `[]` and exits 0. -/
theorem C8_empty_routemap_success (service_ip : String) (items : List Item)
    (h : parse_apigee_routes items = []) :
    mainRun (some service_ip) (some items) = ⟨0, some "[]"⟩ := by
  simp [mainRun, h]

theorem C8_witness : mainRun (some "10.0.0.5") (some []) = ⟨0, some "[]"⟩ :=
  C8_empty_routemap_success "10.0.0.5" [] rfl

/-- C9: the transform is deterministic — identical resource lists and
identical resolved addresses produce the same target sequence and the same
serialized output. -/
theorem C9_transform_deterministic (items₁ items₂ : List Item)
    (address₁ address₂ : String) (hi : items₁ = items₂) (ha : address₁ = address₂) :
    generate_prometheus_targets (parse_apigee_routes items₁) address₁ =
      generate_prometheus_targets (parse_apigee_routes items₂) address₂ ∧
    renderTargets (generate_prometheus_targets (parse_apigee_routes items₁) address₁) =
      renderTargets (generate_prometheus_targets (parse_apigee_routes items₂) address₂) := by
  subst hi
  subst ha
  exact ⟨rfl, rfl⟩

theorem C9_witness :
    generate_prometheus_targets (parse_apigee_routes []) "10.0.0.5" =
      generate_prometheus_targets (parse_apigee_routes []) "10.0.0.5" :=
  (C9_transform_deterministic [] [] "10.0.0.5" "10.0.0.5" rfl rfl).1

/-- C10: a Service whose ClusterIP is missing, empty, or the literal
string "None" resolves to no address, and the run then exits 1 without
writing any output. -/
theorem C10_headless_service_aborts (r : ServiceLookup) (cip : Option String)
    (hr : r = .found cip)
    (hc : cip = none ∨ cip = some "" ∨ cip = some "None") :
    get_k8s_service_ip r = none ∧
      ∀ items_result, mainRun (get_k8s_service_ip r) items_result = ⟨1, none⟩ := by
  subst hr
  rcases hc with rfl | rfl | rfl <;> exact ⟨rfl, fun _ => rfl⟩

theorem C10_witness :
    mainRun (get_k8s_service_ip (.found (some "None"))) (some []) = ⟨1, none⟩ :=
  (C10_headless_service_aborts (.found (some "None")) (some "None") rfl
    (Or.inr (Or.inr rfl))).2 (some [])

end ApigeeHealth
